import Mathlib

/-!
# Verification of `gsw` (git-status-walker), from `gsw/main.go`

A shallow embedding of the `gsw` subsystem of `presbrey/cmd`:

* `parseGitStatus` — pure line-classification and summary formatting.
* `analyzeBranch` / `analyzeRepo` — per-branch and per-repository analysis.
  The external version-control tool is modelled as an oracle
  (`GitRepoModel`) plus one piece of mutable state: the branch currently
  checked out in the repository's working tree (a `String` threaded
  through every function that can run a checkout).  Command outputs are
  modelled at the level the Go code observes them: a query either fails
  or returns a text; the `rev-parse --abbrev-ref HEAD` query reports the
  checked-out branch name.
* `findGitRepos` — the discovery walk, over a tree model of the file
  system.  Paths are modelled as lists of path segments relative to the
  scan root (Go computes `filepath.Rel` and counts separator-split
  segments; the relative path of the root itself is `"."`, which splits
  into one segment, so the root has walk depth 1).
* the render layer — `displayRepoStatus`, `displayJSONOutput` and the
  post-discovery part of `main`, as functions from data to the text
  written on standard output.

Go byte strings are modelled as Lean `String`s (character sequences);
all texts involved are ASCII except the fixed icons, for which the
distinction is irrelevant to the properties proved.  The Go standard
library string helpers the source calls (`strings.HasPrefix`,
`strings.Split`, `strings.TrimSpace`, `bufio.Scanner` line splitting)
are embedded as character-list recursions below so that every
definition evaluates inside the kernel.
-/

/-! ## Go string helpers -/

/-- `strings.HasPrefix s p` from the Go standard library. -/
def goHasPrefixStr (s p : String) : Bool :=
  p.toList.isPrefixOf s.toList

/-- `strings.Split cs "\n"`: split at every newline; the empty input
yields one empty piece, `n` separators yield `n + 1` pieces. -/
def splitNewlineList : List Char → List (List Char)
  | [] => [[]]
  | c :: cs =>
    if c = '\n' then [] :: splitNewlineList cs
    else
      match splitNewlineList cs with
      | [] => [[c]]
      | t :: ts => (c :: t) :: ts

/-- `strings.Split s "\n")` on `String`s. -/
def splitNewline (s : String) : List String :=
  (splitNewlineList s.toList).map String.mk

/-- The characters `strings.TrimSpace` removes (the ASCII white space
set; the inputs involved are ASCII). -/
def goIsSpace (c : Char) : Bool :=
  c = ' ' || c = '\t' || c = '\n' || c = '\x0B' || c = '\x0C' || c = '\r'

/-- `strings.TrimSpace` from the Go standard library: drop white space
from both ends. -/
def goTrimSpace (s : String) : String :=
  String.mk (((s.toList.dropWhile goIsSpace).reverse.dropWhile goIsSpace).reverse)

/-- Per-branch record (`BranchStatus` in `gsw/main.go`).  Fields start at
Go zero values: `isDirty = false`, `ahead = behind = 0`, `status = ""`. -/
structure BranchStatus where
  name : String
  isDirty : Bool
  ahead : Int
  behind : Int
  status : String
  current : Bool
deriving Repr, DecidableEq

/-- Per-repository record (`RepoStatus` in `gsw/main.go`). -/
structure RepoStatus where
  path : String
  branches : List BranchStatus
  currentBranch : String
  error : String
deriving Repr, DecidableEq

/-! ## `parseGitStatus` -/

/-- One line as produced by `bufio.Scanner` with the default `ScanLines`
split: the trailing carriage return of a `\r\n` ending is stripped. -/
def stripCR (s : String) : String :=
  if s.toList.getLast? = some '\r' then String.mk s.toList.dropLast else s

/-- The sequence of lines `bufio.Scanner` yields on `s`: split at `\n`,
drop the empty token after a trailing newline, strip a trailing `\r`
from each line.  (`""` yields no lines; a final line needs no newline.) -/
def scanLines (s : String) : List String :=
  let ls := splitNewline s
  (if ls.getLast? = some "" then ls.dropLast else ls).map stripCR

/-- The four counters of `parseGitStatus`'s loop. -/
structure StatusCounts where
  modified : Nat
  added : Nat
  deleted : Nat
  untracked : Nat
deriving Repr, DecidableEq

/-- One iteration of `parseGitStatus`'s loop: a line shorter than two
characters is skipped, otherwise its two-character head `line[0:2]` is
tested by the `switch` in source order. -/
def countLine (cnt : StatusCounts) (line : String) : StatusCounts :=
  if line.length < 2 then cnt
  else
    let st := String.mk (line.toList.take 2)
    if goHasPrefixStr st "M" || goHasPrefixStr st " M" then
      { cnt with modified := cnt.modified + 1 }
    else if goHasPrefixStr st "A" || goHasPrefixStr st " A" then
      { cnt with added := cnt.added + 1 }
    else if goHasPrefixStr st "D" || goHasPrefixStr st " D" then
      { cnt with deleted := cnt.deleted + 1 }
    else if goHasPrefixStr st "??" then
      { cnt with untracked := cnt.untracked + 1 }
    else cnt

/-- `parseGitStatus` from `gsw/main.go`: count the classified lines of
the porcelain status text, then join the non-zero counts. -/
def parseGitStatus (statusOutput : String) : String :=
  let cnt := (scanLines statusOutput).foldl countLine ⟨0, 0, 0, 0⟩
  let parts : List String := []
  let parts := if cnt.modified > 0 then parts ++ [toString cnt.modified ++ " modified"] else parts
  let parts := if cnt.added > 0 then parts ++ [toString cnt.added ++ " added"] else parts
  let parts := if cnt.deleted > 0 then parts ++ [toString cnt.deleted ++ " deleted"] else parts
  let parts := if cnt.untracked > 0 then parts ++ [toString cnt.untracked ++ " untracked"] else parts
  if parts = [] then "Clean" else String.intercalate ", " parts

example : parseGitStatus "" = "Clean" := by decide
example : parseGitStatus " M a.go\n?? b.go\n?? c.go\n" = "1 modified, 2 untracked" := by decide
example : parseGitStatus "R  old -> new\n" = "Clean" := by decide
example : parseGitStatus "AM x\nD  y\n" = "1 added, 1 deleted" := by decide

/-! ## `fmt.Sscanf(s, "%d\t%d", &ahead, &behind)` -/

/-- Accumulate decimal digits; returns the value and the rest, or `none`
when no digit is present (the `%d` verb then fails). -/
def readDigits : List Char → Option (Nat × List Char)
  | c :: cs =>
    if c.isDigit then
      let d := c.toNat - '0'.toNat
      match readDigits cs with
      | some (v, rest) => some (d * 10 ^ (cs.length - rest.length) + v, rest)
      | none => some (d, cs)
    else none
  | [] => none

/-- The `%d` verb of Go's `fmt` scanning: skip white space, then an
optional sign and at least one digit. -/
def readGoInt (cs : List Char) : Option (Int × List Char) :=
  match cs.dropWhile goIsSpace with
  | '-' :: rest => (readDigits rest).map fun p => (-(p.1 : Int), p.2)
  | '+' :: rest => (readDigits rest).map fun p => ((p.1 : Int), p.2)
  | rest => (readDigits rest).map fun p => ((p.1 : Int), p.2)

/-- `fmt.Sscanf(s, "%d\t%d", &ahead, &behind)` with both targets zero
initialised, the error ignored: each variable keeps `0` unless its verb
parses.  (The `\t` of the format and the leading-space skipping of `%d`
together skip any white space between the two numbers.) -/
def sscanfTwoInts (s : String) : Int × Int :=
  match readGoInt s.toList with
  | none => (0, 0)
  | some (a, rest) =>
    match readGoInt rest with
    | none => (a, 0)
    | some (b, _) => (a, b)

example : sscanfTwoInts "3\t1\n" = (3, 1) := by decide
example : sscanfTwoInts "" = (0, 0) := by decide
example : sscanfTwoInts "7\n" = (7, 0) := by decide

/-! ## The external tool oracle and the per-branch analysis -/

/-- Oracle for the external version-control tool in one repository.
Each field models one of the commands `analyzeRepo`/`analyzeBranch`
invoke:

* `revParseErr` — `git rev-parse --abbrev-ref HEAD`: `some msg` means
  the command fails with error text `msg`; on success its output is the
  name of the checked-out branch (the state threaded separately).
* `branchListing` — `git branch --format=%(refname:short)`: the raw
  output, or a failure message.
* `checkoutOk b` — whether `git checkout -q b` succeeds; a successful
  checkout makes `b` the checked-out branch.
* `statusOutput h` — `git status --porcelain` run while branch `h` is
  checked out: the raw output, or `none` on failure.
* `revListOutput b` — `git rev-list --left-right --count b...@{u}`:
  the raw output, or `none` on failure (for example, no upstream). -/
structure GitRepoModel where
  revParseErr : Option String
  branchListing : Except String String
  checkoutOk : String → Bool
  statusOutput : String → Option String
  revListOutput : String → Option String

/-- `analyzeBranch` from `gsw/main.go`.  `head` is the branch checked
out in the working tree when the call starts; the second component of
the result is the branch checked out when it returns. -/
def analyzeBranch (repo : GitRepoModel) (head branch currentBranch : String) :
    BranchStatus × String :=
  let status : BranchStatus :=
    { name := branch, isDirty := false, ahead := 0, behind := 0, status := "",
      current := branch == currentBranch }
  if branch ≠ currentBranch ∧ repo.checkoutOk branch = false then
    ({ status with status := "Error checking out branch" }, head)
  else
    let head1 := if branch ≠ currentBranch then branch else head
    match repo.statusOutput head1 with
    | none => ({ status with status := "Error getting status" }, head1)
    | some out =>
      let status1 :=
        if out.length > 0 then { status with isDirty := true, status := parseGitStatus out }
        else { status with status := "Clean" }
      match repo.revListOutput branch with
      | none => (status1, head1)
      | some rl =>
        let ab := sscanfTwoInts rl
        ({ status1 with ahead := ab.1, behind := ab.2 }, head1)

/-- The branch loop of `analyzeRepo`: empty names are skipped, each
analysed branch threads the checked-out state, and a record is appended
only when it is dirty or clean branches were requested. -/
def analyzeBranches (repo : GitRepoModel) (currentBranch : String) (includeClean : Bool) :
    List String → String → List BranchStatus × String
  | [], head => ([], head)
  | b :: rest, head =>
    if b = "" then analyzeBranches repo currentBranch includeClean rest head
    else
      let p := analyzeBranch repo head b currentBranch
      let q := analyzeBranches repo currentBranch includeClean rest p.2
      (if p.1.isDirty || includeClean then p.1 :: q.1 else q.1, q.2)

/-- `analyzeRepo` from `gsw/main.go`.  Returns the `RepoStatus` together
with the branch checked out in the working tree when it returns. -/
def analyzeRepo (repo : GitRepoModel) (repoPath : String) (includeClean : Bool)
    (head : String) : RepoStatus × String :=
  match repo.revParseErr with
  | some e =>
    ({ path := repoPath, branches := [], currentBranch := "",
       error := "Error getting current branch: " ++ e }, head)
  | none =>
    let currentBranch := goTrimSpace head
    match repo.branchListing with
    | .error e =>
      ({ path := repoPath, branches := [], currentBranch := currentBranch,
         error := "Error getting branches: " ++ e }, head)
    | .ok listing =>
      let branches := splitNewline (goTrimSpace listing)
      let p := analyzeBranches repo currentBranch includeClean branches head
      let head2 :=
        if currentBranch ≠ "" ∧ repo.checkoutOk currentBranch then currentBranch else p.2
      ({ path := repoPath, branches := p.1, currentBranch := currentBranch,
         error := "" }, head2)

/-! ## Repository discovery (`findGitRepos`)

The file system is a finite tree; a node is a directory with named
children or a plain file.  `filepath.Walk` visits the root and then the
tree depth first (it orders siblings lexically; the model visits them in
list order, which affects none of the properties proved).  Paths are
segment lists relative to the scan root: the root is `[]`, and the walk
depth the Go code computes — `len(strings.Split(rel, sep))` with
`rel = "."` at the root — is `1` for the root and the length of the
segment list elsewhere. -/

/-- A node of the scanned file tree. -/
inductive FSEntry : Type where
  | file : String → FSEntry
  | dir : String → List FSEntry → FSEntry
deriving Repr

/-- The base name of a node (`info.Name()` / `filepath.Base(path)`). -/
def FSEntry.name : FSEntry → String
  | .file n => n
  | .dir n _ => n

/-- `info.IsDir()`. -/
def FSEntry.isDir : FSEntry → Bool
  | .file _ => false
  | .dir _ _ => true

/-- The walk state of `findGitRepos`: the repository list being built
and the `visited` deduplication set. -/
structure WalkState where
  repos : List (List String)
  visited : List (List String)
deriving Repr, DecidableEq

/-- The walk callback of `findGitRepos`, at the node `e` whose path
relative to the scan root is `rel`.  Returns the new state and whether
`filepath.SkipDir` was returned (the callback only ever returns it for
directories).  The branches, in source order: the depth cut-off, the
fixed exclusion set, and the version-control-directory check. -/
def walkFn (maxDepth : Int) (rel : List String) (e : FSEntry) (st : WalkState) :
    WalkState × Bool :=
  let depth : Int := if rel = [] then 1 else rel.length
  if depth > maxDepth then (st, e.isDir)
  else if e.isDir ∧ (e.name = "node_modules" ∨ e.name = "vendor" ∨ e.name = ".git") then
    (st, true)
  else if e.isDir ∧ e.name = ".git" then
    let repoPath := rel.dropLast
    if st.visited.contains repoPath then (st, true)
    else ({ repos := st.repos ++ [repoPath], visited := repoPath :: st.visited }, true)
  else (st, false)

/-- `filepath.Walk` restricted to the callback above, over the children
of a directory whose path relative to the scan root is `rel`: visit
each child left to right; unless the callback skipped it, descend into
its children first. -/
def walkList (maxDepth : Int) (rel : List String) (es : List FSEntry) (st : WalkState) :
    WalkState :=
  match es with
  | [] => st
  | e :: rest =>
    let relE := rel ++ [e.name]
    let p := walkFn maxDepth relE e st
    let st1 :=
      if p.2 then p.1
      else
        match e with
        | .file _ => p.1
        | .dir _ children => walkList maxDepth relE children p.1
    walkList maxDepth rel rest st1

/-- `findGitRepos` from `gsw/main.go`: visit the scan root (its relative
path is `[]`, rendered `"."` by `filepath.Rel`), walk the tree below it,
and return the collected repository root paths (as segment lists
relative to the scan root). -/
def findGitRepos (root : FSEntry) (maxDepth : Int) : List (List String) :=
  let p := walkFn maxDepth [] root { repos := [], visited := [] }
  let final :=
    if p.2 then p.1
    else
      match root with
      | .file _ => p.1
      | .dir _ children => walkList maxDepth [] children p.1
  final.repos

/-! ## The orchestrator (sequential and parallel scans)

A scan environment assigns to each repository path its oracle and the
branch checked out there when the scan starts; distinct paths are
distinct working trees (the design's stated assumption).  `analyzeRepo`
is deterministic given the oracle, so a parallel run differs from a
sequential one only in the order the per-repository results come off
the collection channel; that arrival order is the model's one piece of
scheduler nondeterminism, a parameter constrained to be a permutation
of the spawned list. -/

/-- Scan environment: oracle and initial checked-out branch per path. -/
structure ScanEnv where
  repoAt : String → GitRepoModel
  headAt : String → String

/-- The record one unit of work produces for the repository at `path`. -/
def analyzeRepoIn (env : ScanEnv) (includeClean : Bool) (path : String) : RepoStatus :=
  (analyzeRepo (env.repoAt path) path includeClean (env.headAt path)).1

/-- `analyzeReposSequential` from `gsw/main.go`: one record per path, in
input order. -/
def analyzeReposSequential (env : ScanEnv) (repos : List String) (includeClean : Bool) :
    List RepoStatus :=
  repos.map (analyzeRepoIn env includeClean)

/-- `analyzeReposParallel` from `gsw/main.go`: one goroutine per path
runs `analyzeRepo` and sends its record to the channel; the collector
appends records in `arrival` order, the order results come off the
channel — some permutation of the spawned paths. -/
def analyzeReposParallel (env : ScanEnv) (includeClean : Bool) (arrival : List String) :
    List RepoStatus :=
  arrival.map (analyzeRepoIn env includeClean)

/-! ## Rendering -/

/-- The ahead/behind bracket a branch line carries, exactly as the
nested `Printf` calls of `displayRepoStatus` emit it (the leading
space separates it from the branch name). -/
def aheadBehindIndicator (ahead behind : Int) : String :=
  if ahead > 0 ∨ behind > 0 then
    " [" ++ (if ahead > 0 then "↑" ++ toString ahead else "")
         ++ (if behind > 0 then (if ahead > 0 then " " else "") ++ "↓" ++ toString behind
             else "")
         ++ "]"
  else ""

/-- One branch line of the text rendering. -/
def renderBranchLine (b : BranchStatus) : String :=
  let icon := if b.isDirty then "⚠️ " else "✓ "
  let branchName := if b.current then b.name ++ " *" else b.name
  "   " ++ icon ++ " " ++ branchName ++ aheadBehindIndicator b.ahead b.behind
    ++ " - " ++ b.status ++ "\n"

/-- `displayRepoStatus` from `gsw/main.go`, as the text it prints. -/
def displayRepoStatus (status : RepoStatus) (showClean : Bool) : String :=
  if status.error ≠ "" then
    "📁 " ++ status.path ++ " - ERROR: " ++ status.error ++ "\n\n"
  else if status.branches = [] then
    "📁 " ++ status.path ++ "\n"
      ++ (if ¬showClean then "   ✓ All branches clean\n\n" else "")
  else
    let hasDirty := status.branches.any (·.isDirty)
    if ¬hasDirty ∧ ¬showClean then
      "📁 " ++ status.path ++ "\n" ++ "   ✓ All branches clean\n\n"
    else
      "📁 " ++ status.path ++ "\n"
        ++ String.join (status.branches.map renderBranchLine) ++ "\n"

/-- Go's `%q` verb on the strings at hand: quote and escape backslash,
quotation mark and the common control characters. -/
def goQuoteChar (c : Char) : String :=
  if c = '\\' then "\\\\"
  else if c = '"' then "\\\""
  else if c = '\n' then "\\n"
  else if c = '\t' then "\\t"
  else if c = '\r' then "\\r"
  else String.mk [c]

/-- Go's `%q` on a whole string. -/
def goQuote (s : String) : String :=
  "\"" ++ String.join (s.toList.map goQuoteChar) ++ "\""

/-- Go's `%v` on a boolean. -/
def goBool (b : Bool) : String := if b then "true" else "false"

/-- One branch object of the JSON rendering; `isLast` tells whether the
separating comma is withheld. -/
def jsonBranch (b : BranchStatus) (isLast : Bool) : String :=
  "      \x7b\n"
    ++ "        \"name\": " ++ goQuote b.name ++ ",\n"
    ++ "        \"current\": " ++ goBool b.current ++ ",\n"
    ++ "        \"dirty\": " ++ goBool b.isDirty ++ ",\n"
    ++ "        \"ahead\": " ++ toString b.ahead ++ ",\n"
    ++ "        \"behind\": " ++ toString b.behind ++ ",\n"
    ++ "        \"status\": " ++ goQuote b.status ++ "\n"
    ++ (if isLast then "      \x7d\n" else "      \x7d,\n")

/-- Render each element together with whether it is the last one. -/
def withLastFlag : List α → List (α × Bool)
  | [] => []
  | [a] => [(a, true)]
  | a :: rest => (a, false) :: withLastFlag rest

/-- One repository object of the JSON rendering. -/
def jsonRepo (s : RepoStatus) (isLast : Bool) : String :=
  "  \x7b\n"
    ++ "    \"path\": " ++ goQuote s.path ++ ",\n"
    ++ "    \"current_branch\": " ++ goQuote s.currentBranch ++ ",\n"
    ++ (if s.error ≠ "" then "    \"error\": " ++ goQuote s.error ++ ",\n" else "")
    ++ "    \"branches\": [\n"
    ++ String.join ((withLastFlag s.branches).map fun p => jsonBranch p.1 p.2)
    ++ "    ]\n"
    ++ (if isLast then "  \x7d\n" else "  \x7d,\n")

/-- `displayJSONOutput` from `gsw/main.go`, as the text it prints. -/
def displayJSONOutput (statuses : List RepoStatus) : String :=
  "[\n"
    ++ String.join ((withLastFlag statuses).map fun p => jsonRepo p.1 p.2)
    ++ "]\n"

/-- The command-line switches `main` reads. -/
structure Flags where
  showClean : Bool
  verbose : Bool
  parallel : Bool
  jsonOutput : Bool

/-- `pluralize` from `gsw/main.go`. -/
def pluralize (count : Nat) (singular plural : String) : String :=
  if count = 1 then singular else plural

/-- `main` from `gsw/main.go`, from the point where discovery has
produced `repos` onward, as the pair of the text written on standard
output and the process exit code (this region of `main` never calls
`os.Exit`, so the code is `0` on every path).  `arrival` is the
channel arrival order of the parallel case. -/
def mainFromDiscovery (env : ScanEnv) (flags : Flags) (absDir : String)
    (repos : List String) (arrival : List String) : String × Nat :=
  let header :=
    if flags.verbose ∧ ¬flags.jsonOutput then
      "Scanning directory: " ++ absDir ++ "\n"
        ++ "Show clean branches: " ++ goBool flags.showClean ++ "\n"
        ++ "Parallel processing: " ++ goBool flags.parallel ++ "\n" ++ "\n"
    else ""
  if repos.length = 0 then
    (header ++ (if ¬flags.jsonOutput then "No git repositories found.\n" else ""), 0)
  else
    let statuses :=
      if flags.parallel then analyzeReposParallel env flags.showClean arrival
      else analyzeReposSequential env repos flags.showClean
    if flags.jsonOutput then (header ++ displayJSONOutput statuses, 0)
    else
      (header
        ++ "Found " ++ toString repos.length ++ " git repositor"
        ++ pluralize repos.length "y" "ies" ++ ":\n\n"
        ++ String.join (statuses.map fun s => displayRepoStatus s flags.showClean), 0)

/-! ## Specification-side definitions

These restate, in the specification's words, what the claims under test
say; they are compared against the embedded source functions above. -/

/-- The four change categories of the specification. -/
inductive ChangeCat : Type where
  | modified | added | deleted | untracked
deriving Repr, DecidableEq

/-- The specification's classification of one status line: by its
two-character head, `M`/` M` is modified, `A`/` A` added, `D`/` D`
deleted, `??` untracked; anything else (including a line shorter than
two characters) is ignored.  The four classes are pairwise disjoint, so
the order of the tests is immaterial. -/
def specLineCat (line : String) : Option ChangeCat :=
  match line.toList with
  | c1 :: c2 :: _ =>
    if c1 = 'M' ∨ (c1 = ' ' ∧ c2 = 'M') then some .modified
    else if c1 = 'A' ∨ (c1 = ' ' ∧ c2 = 'A') then some .added
    else if c1 = 'D' ∨ (c1 = ' ' ∧ c2 = 'D') then some .deleted
    else if c1 = '?' ∧ c2 = '?' then some .untracked
    else none
  | _ => none

/-- How many lines of `s` the specification counts in category `cat`. -/
def specCount (s : String) (cat : ChangeCat) : Nat :=
  (scanLines s).countP (fun l => specLineCat l = some cat)

/-- The specification's summary: the non-zero counts, each formatted as
count-space-category, joined with `", "` in the fixed order modified,
added, deleted, untracked; `"Clean"` when no line was counted. -/
def specSummary (s : String) : String :=
  let entries : List (Nat × String) :=
    [(specCount s .modified, " modified"), (specCount s .added, " added"),
     (specCount s .deleted, " deleted"), (specCount s .untracked, " untracked")]
  let parts := (entries.filter (fun p => p.1 > 0)).map (fun p => toString p.1 ++ p.2)
  if parts = [] then "Clean" else String.intercalate ", " parts

/-- The branch loop of `analyzeRepo` instrumented to keep every record:
the per-branch results in branch-listing order, before the
dirty-or-include-clean filter is applied. -/
def analyzeBranchesAll (repo : GitRepoModel) (currentBranch : String) :
    List String → String → List BranchStatus × String
  | [], head => ([], head)
  | b :: rest, head =>
    if b = "" then analyzeBranchesAll repo currentBranch rest head
    else
      let p := analyzeBranch repo head b currentBranch
      let q := analyzeBranchesAll repo currentBranch rest p.2
      (p.1 :: q.1, q.2)

/-! ## Concrete oracles used to instantiate the theorems -/

/-- A healthy two-branch repository: every command succeeds, `feature`
has one untracked file, nothing has an upstream. -/
def okRepo : GitRepoModel where
  revParseErr := none
  branchListing := .ok "main\nfeature\n"
  checkoutOk := fun _ => true
  statusOutput := fun h => some (if h = "feature" then "?? x.go\n" else "")
  revListOutput := fun _ => none

/-- A repository where every checkout fails. -/
def badCheckoutRepo : GitRepoModel where
  revParseErr := none
  branchListing := .ok "main\nfeature\n"
  checkoutOk := fun _ => false
  statusOutput := fun _ => some ""
  revListOutput := fun _ => none

/-- A repository where the current branch cannot be determined. -/
def errRepo : GitRepoModel where
  revParseErr := some "exit status 128"
  branchListing := .error "exit status 128"
  checkoutOk := fun _ => false
  statusOutput := fun _ => none
  revListOutput := fun _ => none

/-- A scan environment assigning `okRepo` to the path `"a"` and
`errRepo` to every other path, with `main` checked out everywhere. -/
def sampleEnv : ScanEnv where
  repoAt := fun p => if p = "a" then okRepo else errRepo
  headAt := fun _ => "main"

/-! # Theorems -/

/-! ## Repository discovery -/

/-- The walk callback never changes the walk state: the branch that
would record a repository tests `e.isDir ∧ e.name = ".git"`, but every
such node was already skipped by the exclusion test directly above it,
so the branch is unreachable. -/
theorem walkFn_state (maxDepth : Int) (rel : List String) (e : FSEntry) (st : WalkState) :
    (walkFn maxDepth rel e st).1 = st := by
  unfold walkFn
  by_cases h1 : (if rel = [] then (1 : Int) else (rel.length : Int)) > maxDepth
  · simp [h1]
  · by_cases h2 : e.isDir ∧ (e.name = "node_modules" ∨ e.name = "vendor" ∨ e.name = ".git")
    · simp [h1, h2]
    · have h3 : ¬(e.isDir ∧ e.name = ".git") := fun hh => h2 ⟨hh.1, Or.inr (Or.inr hh.2)⟩
      simp [h1, h2, h3]

/-- Walking any forest leaves the walk state untouched, because the
callback does. -/
theorem walkList_state (maxDepth : Int) (rel : List String) (es : List FSEntry)
    (st : WalkState) : walkList maxDepth rel es st = st := by
  match es with
  | [] => rw [walkList.eq_def]
  | e :: rest =>
    rw [walkList.eq_def]
    cases e with
    | file n =>
      simp only [walkFn_state, ite_self]
      exact walkList_state maxDepth rel rest st
    | dir n children =>
      simp only [walkFn_state]
      rw [walkList_state maxDepth _ children st]
      simp only [ite_self]
      exact walkList_state maxDepth rel rest st

/-- C1.  The spec says a repository nested at depth `D` is discovered
whenever `max-depth ≥ D`.  The code cannot discover anything: the fixed
exclusion set prunes every directory named `.git` before the
version-control-metadata check below it runs, so that check is dead
code and `findGitRepos` returns the empty list on every input — here
shown both on a scan root with a repository at depth 1 under the
default depth limit, and in general. -/
theorem findGitRepos_returns_nothing :
    findGitRepos (.dir "work" [.dir "repo" [.dir ".git" [.file "HEAD"], .file "a.go"]]) 10 = []
    ∧ ∀ (root : FSEntry) (maxDepth : Int), findGitRepos root maxDepth = [] := by
  have hgen : ∀ (root : FSEntry) (maxDepth : Int), findGitRepos root maxDepth = [] := by
    intro root maxDepth
    unfold findGitRepos
    cases root with
    | file n => simp [walkFn_state]
    | dir n children => simp [walkFn_state, walkList_state]
  exact ⟨hgen _ _, hgen⟩

/-! ## Per-repository analysis -/

/-- C5.  `analyzeRepo` sets `error` only on the two early-return paths,
both of which return the record before the branch loop runs; a record
with a non-empty `error` therefore carries no branch data. -/
theorem analyzeRepo_error_empty_branches (repo : GitRepoModel) (path : String)
    (ic : Bool) (head : String)
    (h : (analyzeRepo repo path ic head).1.error ≠ "") :
    (analyzeRepo repo path ic head).1.branches = [] := by
  cases hrp : repo.revParseErr with
  | some e => simp [analyzeRepo, hrp]
  | none =>
    cases hbl : repo.branchListing with
    | error e => simp [analyzeRepo, hrp, hbl]
    | ok listing =>
      exact absurd (by simp [analyzeRepo, hrp, hbl]) h

/-- Witness for C5 at a repository whose current branch cannot be
determined. -/
theorem analyzeRepo_error_empty_branches_w :
    (analyzeRepo errRepo "p" false "main").1.error ≠ ""
    ∧ (analyzeRepo errRepo "p" false "main").1.branches = [] :=
  ⟨by decide, analyzeRepo_error_empty_branches errRepo "p" false "main" (by decide)⟩

/-- C3.  When every checkout the scan performs succeeds, the branch
checked out after `analyzeRepo` returns is the branch checked out when
it began: the final restoration step checks out the branch captured at
the start.  (`head` is assumed to be a real branch name: non-empty and
free of surrounding white space, so that the trim of the current-branch
query output returns it unchanged.) -/
theorem analyzeRepo_restores_original_branch (repo : GitRepoModel) (path : String)
    (ic : Bool) (head : String)
    (htrim : goTrimSpace head = head) (hne : head ≠ "")
    (hco : ∀ b, repo.checkoutOk b = true) :
    (analyzeRepo repo path ic head).2 = head := by
  cases hrp : repo.revParseErr with
  | some e => simp [analyzeRepo, hrp]
  | none =>
    cases hbl : repo.branchListing with
    | error e => simp [analyzeRepo, hrp, hbl]
    | ok listing => simp [analyzeRepo, hrp, hbl, htrim, hne, hco]

/-- Witness for C3 on a healthy two-branch repository. -/
theorem analyzeRepo_restores_original_branch_w :
    goTrimSpace "main" = "main" ∧ "main" ≠ ""
    ∧ (analyzeRepo okRepo "p" false "main").2 = "main" :=
  ⟨by decide, by decide,
    analyzeRepo_restores_original_branch okRepo "p" false "main" (by decide) (by decide)
      (fun _ => rfl)⟩

/-- The filtering loop is the instrumented loop followed by the
dirty-or-include-clean filter; both thread the checkout state the same
way. -/
theorem analyzeBranches_filter (repo : GitRepoModel) (cb : String) (ic : Bool)
    (ls : List String) (head : String) :
    analyzeBranches repo cb ic ls head
      = (((analyzeBranchesAll repo cb ls head).1.filter fun b => b.isDirty || ic),
         (analyzeBranchesAll repo cb ls head).2) := by
  induction ls generalizing head with
  | nil => simp [analyzeBranches, analyzeBranchesAll]
  | cons b rest ih =>
    by_cases hb : b = ""
    · simp [analyzeBranches, analyzeBranchesAll, hb, ih]
    · simp [analyzeBranches, analyzeBranchesAll, hb, ih, List.filter_cons]

/-- C8.  On a repository whose two repository-level queries succeed, the
`branches` field is exactly the per-branch records in branch-listing
order, kept precisely when dirty or when clean branches were requested
(`List.filter` preserves order). -/
theorem analyzeRepo_branches_filtered (repo : GitRepoModel) (path head listing : String)
    (ic : Bool) (hrp : repo.revParseErr = none)
    (hbl : repo.branchListing = Except.ok listing) :
    (analyzeRepo repo path ic head).1.branches
      = ((analyzeBranchesAll repo (goTrimSpace head)
            (splitNewline (goTrimSpace listing)) head).1.filter
          fun b => b.isDirty || ic) := by
  simp [analyzeRepo, hrp, hbl, analyzeBranches_filter]

/-- Witness for C8: with clean branches excluded, only the dirty
`feature` branch of `okRepo` is kept. -/
theorem analyzeRepo_branches_filtered_w :
    okRepo.revParseErr = none
    ∧ okRepo.branchListing = Except.ok "main\nfeature\n"
    ∧ (analyzeRepo okRepo "p" false "main").1.branches
        = ((analyzeBranchesAll okRepo (goTrimSpace "main")
              (splitNewline (goTrimSpace "main\nfeature\n")) "main").1.filter
            fun b => b.isDirty || false) :=
  ⟨rfl, rfl, analyzeRepo_branches_filtered okRepo "p" "main" "main\nfeature\n" false rfl rfl⟩

/-! ## Per-branch analysis -/

/-- C2, counterexample.  A branch whose checkout fails produces
`isDirty = false` with `status = "Error checking out branch"`, so
`isDirty = false` does not imply `status = "Clean"`. -/
theorem analyzeBranch_clean_invariant_cex :
    (analyzeBranch badCheckoutRepo "main" "feature" "main").1.isDirty = false
    ∧ (analyzeBranch badCheckoutRepo "main" "feature" "main").1.status ≠ "Clean" := by
  exact ⟨by decide, by decide⟩

/-- C2, amended.  A record with `isDirty = false` carries `"Clean"` or
one of the two branch-level failure markers; in particular, when no
per-branch command failed, `isDirty = false` does imply
`status = "Clean"`. -/
theorem analyzeBranch_not_dirty_cases (repo : GitRepoModel)
    (head branch currentBranch : String)
    (h : (analyzeBranch repo head branch currentBranch).1.isDirty = false) :
    (analyzeBranch repo head branch currentBranch).1.status = "Clean"
    ∨ (analyzeBranch repo head branch currentBranch).1.status = "Error checking out branch"
    ∨ (analyzeBranch repo head branch currentBranch).1.status = "Error getting status" := by
  by_cases hco : branch ≠ currentBranch ∧ repo.checkoutOk branch = false
  · simp [analyzeBranch, hco]
  · cases hst : repo.statusOutput (if branch = currentBranch then head else branch) with
    | none => simp [analyzeBranch, hco, ite_not, hst]
    | some out =>
      by_cases hlen : out.length > 0
      · have hd : (analyzeBranch repo head branch currentBranch).1.isDirty = true := by
          cases hrl : repo.revListOutput branch <;>
            simp [analyzeBranch, hco, ite_not, hst, hlen, hrl]
        rw [hd] at h
        exact absurd h (by decide)
      · cases hrl : repo.revListOutput branch <;>
          simp [analyzeBranch, hco, ite_not, hst, hlen, hrl]

/-- Witness for the amended C2 on a branch that analyses clean. -/
theorem analyzeBranch_not_dirty_cases_w :
    (analyzeBranch okRepo "main" "main" "main").1.isDirty = false
    ∧ ((analyzeBranch okRepo "main" "main" "main").1.status = "Clean"
       ∨ (analyzeBranch okRepo "main" "main" "main").1.status = "Error checking out branch"
       ∨ (analyzeBranch okRepo "main" "main" "main").1.status = "Error getting status") :=
  ⟨by decide, analyzeBranch_not_dirty_cases okRepo "main" "main" "main" (by decide)⟩

/-- C7.  When the ahead/behind query fails (for example, no upstream is
configured) but checkout and status query succeeded, the record keeps
`ahead = 0` and `behind = 0` and its `status` is the ordinary summary —
no error marker is recorded for the branch; and a repository whose two
repository-level queries succeed has `error = ""` whatever the
ahead/behind oracle answers. -/
theorem analyzeBranch_upstream_absent (repo : GitRepoModel)
    (head branch currentBranch path listing out : String) (ic : Bool)
    (hco : branch = currentBranch ∨ repo.checkoutOk branch = true)
    (hst : repo.statusOutput (if branch ≠ currentBranch then branch else head) = some out)
    (hrl : repo.revListOutput branch = none)
    (hrp : repo.revParseErr = none)
    (hbl : repo.branchListing = Except.ok listing) :
    (analyzeBranch repo head branch currentBranch).1.ahead = 0
    ∧ (analyzeBranch repo head branch currentBranch).1.behind = 0
    ∧ (analyzeBranch repo head branch currentBranch).1.status
        = (if out.length > 0 then parseGitStatus out else "Clean")
    ∧ (analyzeRepo repo path ic head).1.error = "" := by
  have hco' : ¬(branch ≠ currentBranch ∧ repo.checkoutOk branch = false) := by
    rcases hco with h | h
    · intro hh; exact hh.1 h
    · intro hh; rw [h] at hh; exact Bool.noConfusion hh.2
  have hst' : repo.statusOutput (if branch = currentBranch then head else branch) = some out := by
    simpa [ite_not] using hst
  refine ⟨?_, ?_, ?_, ?_⟩
  · by_cases hlen : out.length > 0 <;> simp [analyzeBranch, hco', ite_not, hst', hrl, hlen]
  · by_cases hlen : out.length > 0 <;> simp [analyzeBranch, hco', ite_not, hst', hrl, hlen]
  · by_cases hlen : out.length > 0 <;> simp [analyzeBranch, hco', ite_not, hst', hrl, hlen]
  · simp [analyzeRepo, hrp, hbl]

/-- Witness for C7 on `okRepo`'s dirty `feature` branch, which has no
upstream. -/
theorem analyzeBranch_upstream_absent_w :
    (analyzeBranch okRepo "main" "feature" "main").1.ahead = 0
    ∧ (analyzeBranch okRepo "main" "feature" "main").1.behind = 0
    ∧ (analyzeBranch okRepo "main" "feature" "main").1.status
        = (if ("?? x.go\n").length > 0 then parseGitStatus "?? x.go\n" else "Clean")
    ∧ (analyzeRepo okRepo "p" true "main").1.error = "" :=
  analyzeBranch_upstream_absent okRepo "main" "feature" "main" "p" "main\nfeature\n"
    "?? x.go\n" true (Or.inr rfl) (by decide) rfl rfl rfl

/-! ## Orchestrator -/

/-- C4.  `analyzeRepo` is deterministic per path, so whatever order the
parallel collector receives results in, the records are a permutation —
the same multiset — of the sequential run's records. -/
theorem parallel_matches_sequential (env : ScanEnv) (repos arrival : List String)
    (ic : Bool) (hperm : arrival.Perm repos) :
    (analyzeReposParallel env ic arrival).Perm (analyzeReposSequential env repos ic) :=
  hperm.map (analyzeRepoIn env ic)

/-- Witness for C4 on a two-repository scan collected in reverse
order. -/
theorem parallel_matches_sequential_w :
    (["b", "a"] : List String).Perm ["a", "b"]
    ∧ (analyzeReposParallel sampleEnv true ["b", "a"]).Perm
        (analyzeReposSequential sampleEnv ["a", "b"] true) :=
  ⟨by decide, parallel_matches_sequential sampleEnv ["a", "b"] ["b", "a"] true (by decide)⟩

/-! ## Output -/

/-- C10.  With structured output requested and no repositories found,
`main` writes nothing at all to standard output and the process exits
normally; the structured renderer is never reached — had it been
invoked on the empty list it would have printed a (non-empty) empty
JSON array. -/
theorem main_json_no_repos_silent (env : ScanEnv) (flags : Flags) (absDir : String)
    (arrival : List String) (hj : flags.jsonOutput = true) :
    (mainFromDiscovery env flags absDir [] arrival).1 = ""
    ∧ (mainFromDiscovery env flags absDir [] arrival).2 = 0
    ∧ displayJSONOutput [] ≠ "" := by
  refine ⟨?_, ?_, ?_⟩
  · simp [mainFromDiscovery, hj]
  · simp [mainFromDiscovery, hj]
  · decide

/-- Witness for C10 with the `-json` flag set. -/
theorem main_json_no_repos_silent_w :
    (Flags.mk false false false true).jsonOutput = true
    ∧ (mainFromDiscovery sampleEnv (Flags.mk false false false true) "/w" [] []).1 = ""
    ∧ (mainFromDiscovery sampleEnv (Flags.mk false false false true) "/w" [] []).2 = 0
    ∧ displayJSONOutput [] ≠ "" :=
  ⟨rfl, main_json_no_repos_silent sampleEnv (Flags.mk false false false true) "/w" [] rfl⟩

/-! ## Text rendering of the ahead/behind bracket -/

/-- String append is list append on the underlying characters. -/
theorem stringAppendAssoc (a b c : String) : a ++ b ++ c = a ++ (b ++ c) := by
  cases a; cases b; cases c
  exact congrArg String.mk (List.append_assoc _ _ _)

/-- Appending the empty string on the right is the identity. -/
theorem stringAppendEmpty (s : String) : s ++ "" = s := by
  cases s
  exact congrArg String.mk (List.append_nil _)

/-- Appending the empty string on the left is the identity. -/
theorem stringEmptyAppend (s : String) : "" ++ s = s := by
  cases s
  rfl

/-- Fuse a concrete left pair inside a right-associated append chain. -/
theorem stringFuse (s t u : String) (h : s ++ t = u) (x : String) :
    s ++ (t ++ x) = u ++ x := by
  rw [← stringAppendAssoc, h]

/-- C9.  The bracket part of a branch line is printed exactly when
`ahead > 0` or `behind > 0`, as `[↑N]` when only `ahead` is positive,
`[↓N]` when only `behind` is, and `[↑N ↓N]` when both are (a single
space separates it from the branch name). -/
theorem aheadBehindIndicator_forms (a b : Int) :
    (a > 0 ∧ b > 0 →
      aheadBehindIndicator a b = " [↑" ++ toString a ++ " ↓" ++ toString b ++ "]")
    ∧ (a > 0 ∧ ¬b > 0 → aheadBehindIndicator a b = " [↑" ++ toString a ++ "]")
    ∧ (¬a > 0 ∧ b > 0 → aheadBehindIndicator a b = " [↓" ++ toString b ++ "]")
    ∧ (¬(a > 0 ∨ b > 0) → aheadBehindIndicator a b = "") := by
  have f1 : ∀ x : String, " [" ++ ("↑" ++ x) = " [↑" ++ x :=
    stringFuse " [" "↑" " [↑" (by decide)
  have f2 : ∀ x : String, " " ++ ("↓" ++ x) = " ↓" ++ x :=
    stringFuse " " "↓" " ↓" (by decide)
  have f3 : ∀ x : String, " [" ++ ("↓" ++ x) = " [↓" ++ x :=
    stringFuse " [" "↓" " [↓" (by decide)
  refine ⟨fun h => ?_, fun h => ?_, fun h => ?_, fun h => ?_⟩
  · unfold aheadBehindIndicator
    rw [if_pos (Or.inl h.1), if_pos h.1, if_pos h.2, if_pos h.1]
    simp only [stringAppendAssoc]
    rw [f1, f2]
  · unfold aheadBehindIndicator
    rw [if_pos (Or.inl h.1), if_pos h.1, if_neg h.2]
    simp only [stringAppendEmpty, stringAppendAssoc]
    rw [f1]
  · unfold aheadBehindIndicator
    rw [if_pos (Or.inr h.2), if_neg h.1, if_pos h.2, if_neg h.1]
    simp only [stringAppendEmpty, stringEmptyAppend, stringAppendAssoc]
    rw [f3]
  · unfold aheadBehindIndicator
    rw [if_neg h]

/-- Witness for C9: three commits ahead, one behind. -/
theorem aheadBehindIndicator_forms_w :
    aheadBehindIndicator 3 1 = " [↑3 ↓1]" := by
  rw [(aheadBehindIndicator_forms 3 1).1 ⟨by decide, by decide⟩]
  decide

/-! ## The status summary computes the specified counts -/

/-- One loop iteration increments exactly the counter of the category
the specification assigns to the line. -/
theorem countLine_eq (cnt : StatusCounts) (line : String) :
    countLine cnt line =
      match specLineCat line with
      | some .modified => { cnt with modified := cnt.modified + 1 }
      | some .added => { cnt with added := cnt.added + 1 }
      | some .deleted => { cnt with deleted := cnt.deleted + 1 }
      | some .untracked => { cnt with untracked := cnt.untracked + 1 }
      | none => cnt := by
  obtain ⟨cs⟩ := line
  match cs with
  | [] => rfl
  | [c] => rfl
  | c1 :: c2 :: rest =>
    simp only [countLine, specLineCat, String.length, String.toList, goHasPrefixStr,
      List.isPrefixOf, List.length_cons, List.take_succ_cons, List.take_zero]
    by_cases h1 : c1 = 'M' <;> by_cases h2 : c1 = ' ' <;> by_cases h3 : c2 = 'M' <;>
      by_cases h4 : c1 = 'A' <;> by_cases h5 : c2 = 'A' <;> by_cases h6 : c1 = 'D' <;>
        by_cases h7 : c2 = 'D' <;> by_cases h8 : c1 = '?' <;> by_cases h9 : c2 = '?' <;>
          simp_all [@eq_comm Char]

/-- The loop's four counters are the specification's four line counts
(shifted by the initial counter values). -/
theorem foldl_countLine (ls : List String) (cnt : StatusCounts) :
    ls.foldl countLine cnt
      = ⟨cnt.modified + ls.countP (fun l => specLineCat l = some .modified),
         cnt.added + ls.countP (fun l => specLineCat l = some .added),
         cnt.deleted + ls.countP (fun l => specLineCat l = some .deleted),
         cnt.untracked + ls.countP (fun l => specLineCat l = some .untracked)⟩ := by
  induction ls generalizing cnt with
  | nil => simp
  | cons l ls ih =>
    rw [List.foldl_cons, ih, countLine_eq]
    cases h : specLineCat l with
    | none => simp [List.countP_cons, h]
    | some cat => cases cat <;> simp [List.countP_cons, h] <;> omega

/-- C6.  `parseGitStatus` returns exactly the specified summary: each
line is classified by its two-character head as modified, added,
deleted or untracked (unrecognised heads ignored), the non-zero counts
are rendered and joined with `", "` in the fixed order, and `"Clean"`
is returned when no line was counted. -/
theorem parseGitStatus_spec (s : String) : parseGitStatus s = specSummary s := by
  unfold parseGitStatus specSummary specCount
  rw [foldl_countLine]
  by_cases hm : 0 < (scanLines s).countP (fun l => specLineCat l = some ChangeCat.modified) <;>
    by_cases ha : 0 < (scanLines s).countP (fun l => specLineCat l = some ChangeCat.added) <;>
      by_cases hd : 0 < (scanLines s).countP (fun l => specLineCat l = some ChangeCat.deleted) <;>
        by_cases hu : 0 < (scanLines s).countP (fun l => specLineCat l = some ChangeCat.untracked) <;>
          simp [hm, ha, hd, hu]
